import Mathlib

/-!
Verification of the hybrid-rag retrieval pipeline against its specification.

The definitions below are shallow embeddings of the Python source:
  - src/chunker.py              (TextChunker)
  - src/qdrant_utils.py         (QdrantStore.upsert, QdrantStore.search)
  - src/docstore/docstore_crud.py
  - src/rerank.py               (Rerank.rerank)
  - src/rag.py                  (RagPipeline.build_context, generate_response)
  - src/rag_utils.py            (check_context_relevance)
  - src/cache.py                (RagSemanticCache, threshold test modelled from the spec)

Python dicts with string keys are embedded as association lists, the docstore
table as a list of rows, SQLAlchemy sessions as explicit state passing, and
external collaborators (langchain text splitter, cross-encoder, LLM, qdrant
client) as function parameters.
-/

/-- A value stored in the string-keyed metadata dictionary of a chunk (Python dict
values that actually occur here are strings and integers). -/
inductive MVal where
  | s (v : String)
  | i (v : Int)
deriving DecidableEq

/-- A Python string-keyed metadata dictionary, embedded as an association list. -/
abbrev MetaDict := List (String × MVal)

/-- Dictionary access expecting a string value: d.get(k) when the value is a string. -/
def MetaDict.getStr (m : MetaDict) (k : String) : Option String :=
  match m.lookup k with
  | some (MVal.s v) => some v
  | _ => none

/-- Dictionary access expecting an integer value: d.get(k) when the value is an int. -/
def MetaDict.getInt (m : MetaDict) (k : String) : Option Int :=
  match m.lookup k with
  | some (MVal.i v) => some v
  | _ => none

/-- A row of the docstore table (src/docstore/models.py, class Docstore); the
columns the retrieval path reads are source, parent_id and text. -/
structure DocstoreRow where
  source : String
  parent_id : Int
  text : String
deriving DecidableEq

/-- The docstore table contents. -/
abbrev DocTable := List DocstoreRow

/-- session.query(Docstore).filter_by(source=source, parent_id=parent_id).first(),
and likewise the async select(...).scalar_one_or_none() of docstore_crud.py. -/
def lookupParent (tbl : DocTable) (source : String) (pid : Int) : Option DocstoreRow :=
  tbl.find? (fun r => r.source == source && r.parent_id == pid)

/-- A vector-search hit as consumed by retrieve_parent_chunks_from_docstore:
only hit.payload["metadata"]["source"] and hit.payload["metadata"]["parent_id"]
are read. -/
structure Hit where
  source : String
  parent_id : Int
deriving DecidableEq

/-- The record appended for a resolved parent:
a dict with the parent text and metadata carrying "source" and "id". -/
structure ParentRecord where
  text : String
  source : String
  id : Int
deriving DecidableEq

/-- The (source, parent_id) key extracted from the payload of a hit. -/
def hitKey (h : Hit) : String × Int := (h.source, h.parent_id)

/-- The loop of retrieve_parent_chunks_from_docstore /
async_retrieve_parent_chunks_from_docstore (docstore_crud.py): iterate over
hits, skip keys already seen, query the docstore, and append the parent when
found; the key is added to seen only when the parent was found. -/
def retrieveParentsAux (tbl : DocTable) : List Hit → List (String × Int) → List ParentRecord
  | [], _ => []
  | h :: hs, seen =>
    if hitKey h ∈ seen then
      retrieveParentsAux tbl hs seen
    else
      match lookupParent tbl h.source h.parent_id with
      | some p =>
          { text := p.text, source := p.source, id := p.parent_id }
            :: retrieveParentsAux tbl hs (hitKey h :: seen)
      | none => retrieveParentsAux tbl hs seen

/-- retrieve_parent_chunks_from_docstore(hits, session): the seen-key set starts
empty and the parent list starts empty. -/
def retrieve_parent_chunks_from_docstore (tbl : DocTable) (hits : List Hit) : List ParentRecord :=
  retrieveParentsAux tbl hits []

/-- First-occurrence deduplication, carrying the set of keys already kept. -/
def dedupKeysAux {α : Type} [DecidableEq α] : List α → List α → List α
  | [], _ => []
  | k :: ks, seen =>
    if k ∈ seen then dedupKeysAux ks seen else k :: dedupKeysAux ks (k :: seen)

/-- First-occurrence deduplication of a list of keys (first occurrence wins,
order of first occurrences preserved). -/
def dedupKeys {α : Type} [DecidableEq α] (l : List α) : List α :=
  dedupKeysAux l []

/-- Resolution of one (source, parent_id) key against the docstore. -/
def resolveKey (tbl : DocTable) (k : String × Int) : Option ParentRecord :=
  (lookupParent tbl k.1 k.2).map (fun p => { text := p.text, source := p.source, id := p.parent_id })

/-- Membership in the seen set is all dedupKeysAux inspects, so equivalent seen
sets give the same result. -/
theorem dedupKeysAux_congr {α : Type} [DecidableEq α] (l : List α) :
    ∀ seen seen' : List α, (∀ a, a ∈ seen ↔ a ∈ seen') →
      dedupKeysAux l seen = dedupKeysAux l seen' := by
  induction l with
  | nil => intro seen seen' _; rfl
  | cons x xs ih =>
    intro seen seen' h
    simp only [dedupKeysAux]
    by_cases hx : x ∈ seen
    · rw [if_pos hx, if_pos ((h x).1 hx)]
      exact ih seen seen' h
    · rw [if_neg hx, if_neg (fun hx' => hx ((h x).2 hx'))]
      refine congrArg (x :: ·) (ih _ _ ?_)
      intro a
      simp only [List.mem_cons, h a]

/-- A key that resolves to nothing can be dropped from the seen set without
changing the resolved output. -/
theorem filterMap_dedupKeysAux_cons_of_none {α β : Type} [DecidableEq α]
    (f : α → Option β) (k : α) (hk : f k = none) :
    ∀ (l seen : List α),
      (dedupKeysAux l (k :: seen)).filterMap f = (dedupKeysAux l seen).filterMap f := by
  intro l
  induction l with
  | nil => intro seen; rfl
  | cons x xs ih =>
    intro seen
    by_cases hx : x ∈ seen
    · simp only [dedupKeysAux]
      rw [if_pos (List.mem_cons_of_mem _ hx), if_pos hx]
      exact ih seen
    · by_cases hxk : x = k
      · subst hxk
        simp only [dedupKeysAux]
        rw [if_pos (List.mem_cons_self x seen), if_neg hx, List.filterMap_cons_none hk]
      · have hx1 : x ∉ k :: seen := by
          simp only [List.mem_cons, not_or]
          exact ⟨hxk, hx⟩
        simp only [dedupKeysAux]
        rw [if_neg hx1, if_neg hx]
        have hcongr : dedupKeysAux xs (x :: k :: seen) = dedupKeysAux xs (k :: x :: seen) :=
          dedupKeysAux_congr xs _ _ (by intro a; simp only [List.mem_cons]; tauto)
        cases hfx : f x with
        | none =>
          rw [List.filterMap_cons_none hfx, List.filterMap_cons_none hfx, hcongr, ih (x :: seen)]
        | some b =>
          rw [List.filterMap_cons_some hfx, List.filterMap_cons_some hfx, hcongr, ih (x :: seen)]

/-- The hit loop of retrieve_parent_chunks_from_docstore computes: deduplicate
the (source, parent_id) keys first-seen, then resolve each key against the
docstore, dropping unresolved keys. -/
theorem retrieveParentsAux_eq (tbl : DocTable) :
    ∀ (hits : List Hit) (seen : List (String × Int)),
      retrieveParentsAux tbl hits seen
        = (dedupKeysAux (hits.map hitKey) seen).filterMap (resolveKey tbl) := by
  intro hits
  induction hits with
  | nil => intro seen; rfl
  | cons h hs ih =>
    intro seen
    simp only [retrieveParentsAux, List.map_cons, dedupKeysAux]
    by_cases hmem : hitKey h ∈ seen
    · rw [if_pos hmem, if_pos hmem]
      exact ih seen
    · rw [if_neg hmem, if_neg hmem]
      cases hp : lookupParent tbl h.source h.parent_id with
      | some p =>
        have hres : resolveKey tbl (hitKey h)
            = some { text := p.text, source := p.source, id := p.parent_id } := by
          simp [resolveKey, hitKey, hp]
        rw [List.filterMap_cons_some hres, ih (hitKey h :: seen)]
      | none =>
        have hres : resolveKey tbl (hitKey h) = none := by
          simp [resolveKey, hitKey, hp]
        rw [List.filterMap_cons_none hres, filterMap_dedupKeysAux_cons_of_none _ _ hres]
        exact ih seen

/-- dedupKeysAux yields no duplicates and nothing from the seen set. -/
theorem dedupKeysAux_nodup {α : Type} [DecidableEq α] :
    ∀ (l seen : List α), (dedupKeysAux l seen).Nodup ∧ ∀ a ∈ dedupKeysAux l seen, a ∉ seen := by
  intro l
  induction l with
  | nil => intro seen; exact ⟨List.nodup_nil, by simp [dedupKeysAux]⟩
  | cons x xs ih =>
    intro seen
    by_cases hx : x ∈ seen
    · simpa [dedupKeysAux, hx] using ih seen
    · obtain ⟨hnd, hnin⟩ := ih (x :: seen)
      refine ⟨?_, ?_⟩
      · simp only [dedupKeysAux, if_neg hx]
        exact List.nodup_cons.2 ⟨fun hmem => hnin x hmem (List.mem_cons_self x seen), hnd⟩
      · intro a ha
        simp only [dedupKeysAux, if_neg hx, List.mem_cons] at ha
        rcases ha with rfl | ha
        · exact hx
        · exact fun hseen => hnin a ha (List.mem_cons_of_mem _ hseen)

/-- A record resolved from a key carries exactly that key as (source, id). -/
theorem map_key_filterMap_resolve (tbl : DocTable) :
    ∀ L : List (String × Int),
      (L.filterMap (resolveKey tbl)).map (fun r => (r.source, r.id))
        = L.filter (fun k => (resolveKey tbl k).isSome) := by
  intro L
  induction L with
  | nil => rfl
  | cons k ks ih =>
    cases hk : resolveKey tbl k with
    | none => simp [List.filterMap_cons_none hk, List.filter_cons, hk, ih]
    | some r =>
      obtain ⟨p, hp, hr⟩ : ∃ p, lookupParent tbl k.1 k.2 = some p
          ∧ r = { text := p.text, source := p.source, id := p.parent_id } := by
        cases hl : lookupParent tbl k.1 k.2 with
        | none => rw [resolveKey, hl] at hk; exact absurd hk (by simp)
        | some p =>
          refine ⟨p, rfl, ?_⟩
          rw [resolveKey, hl] at hk
          simpa using hk.symm
      have hpred : (p.source == k.1 && p.parent_id == k.2) = true := by
        rw [lookupParent] at hp
        simpa using List.find?_some hp
      simp only [Bool.and_eq_true, beq_iff_eq] at hpred
      subst hr
      simp [List.filterMap_cons_some hk, List.filter_cons, hk, ih, hpred.1, hpred.2]

/-- C2: retrieve_parent_chunks_from_docstore (resolve_parents) returns exactly
one parent record per distinct (source, parent_id) key of the hit payloads,
in first-occurrence hit-rank order, resolving each key against the docstore
and silently dropping keys whose parent is not found; the output carries no
duplicate (source, id) key. -/
theorem resolve_parents_dedups_hits_first_seen (tbl : DocTable) (hits : List Hit) :
    retrieve_parent_chunks_from_docstore tbl hits
      = (dedupKeys (hits.map hitKey)).filterMap (resolveKey tbl)
    ∧ ((retrieve_parent_chunks_from_docstore tbl hits).map (fun r => (r.source, r.id))).Nodup := by
  have h1 : retrieve_parent_chunks_from_docstore tbl hits
      = (dedupKeysAux (hits.map hitKey) []).filterMap (resolveKey tbl) :=
    retrieveParentsAux_eq tbl hits []
  refine ⟨h1, ?_⟩
  rw [h1, map_key_filterMap_resolve]
  exact List.Nodup.filter _ (dedupKeysAux_nodup (hits.map hitKey) []).1

/-- A ranked document dict as passed through reranking and neighbor retrieval:
a "text" field and a "metadata" dict. -/
structure RagDoc where
  text : String
  metadata : MetaDict
deriving DecidableEq

/-- The texts of the docstore rows with parent_id in [parent_id - 1, parent_id,
parent_id + 1] for the given source, in ascending parent_id order: the
select(Docstore).where(source == source, parent_id.in_(neighbor_ids))
.order_by(parent_id) query of retrieve_parent_neighbors, embedded as three
keyed lookups, which agrees with the SQL result under the unique
(source, parent_id) key that upsert_parents_to_docstore maintains. -/
def neighborTexts (tbl : DocTable) (source : String) (parent_id : Int) : List String :=
  [parent_id - 1, parent_id, parent_id + 1].filterMap
    (fun j => (lookupParent tbl source j).map (fun r => r.text))

/-- The loop body of retrieve_parent_neighbors / async_retrieve_parent_neighbors
(docstore_crud.py) for one doc: skip the doc when metadata has no "id" or no
"source"; otherwise join the neighbor texts with a single space and emit a
record whose metadata carries only "source". -/
def expandDoc (tbl : DocTable) (doc : RagDoc) : Option RagDoc :=
  match doc.metadata.getInt "id", doc.metadata.getStr "source" with
  | some parent_id, some source =>
      some { text := String.intercalate " " (neighborTexts tbl source parent_id),
             metadata := [("source", MVal.s source)] }
  | _, _ => none

/-- retrieve_parent_neighbors(docs, session): one pass over docs in order
(an empty docs list returns [] immediately, which coincides with the loop). -/
def retrieve_parent_neighbors (tbl : DocTable) (docs : List RagDoc) : List RagDoc :=
  docs.filterMap (expandDoc tbl)

/-- Total version of the loop body, defined on docs that do carry "id" and
"source" metadata. -/
def expandTotal (tbl : DocTable) (doc : RagDoc) : RagDoc :=
  { text := String.intercalate " "
      (neighborTexts tbl ((doc.metadata.getStr "source").getD "")
        ((doc.metadata.getInt "id").getD 0)),
    metadata := [("source", MVal.s ((doc.metadata.getStr "source").getD ""))] }

/-- Rendering of a metadata value by a Python f-string. -/
def renderMVal : MVal → String
  | MVal.s v => v
  | MVal.i v => toString v

/-- One formatted entry of RagPipeline.build_context (rag.py): source and id
are read from the metadata dict with defaults "Unknown Source" and
"Unknown parent id". -/
def buildContextLine (doc : RagDoc) : String :=
  let source := match doc.metadata.lookup "source" with
    | some v => renderMVal v
    | none => "Unknown Source"
  let id_ := match doc.metadata.lookup "id" with
    | some v => renderMVal v
    | none => "Unknown parent id"
  "[Source: " ++ source ++ ", ID: " ++ id_ ++ "]\nText: " ++ doc.text ++ "\n]"

/-- RagPipeline.build_context: format every document. -/
def build_context (docs : List RagDoc) : List String :=
  docs.map buildContextLine

/-- When every doc carries "id" and "source" metadata, neighbor expansion emits
exactly one record per input doc, in input order. -/
theorem retrieve_parent_neighbors_eq_map (tbl : DocTable) :
    ∀ docs : List RagDoc,
      (∀ d ∈ docs, (d.metadata.getInt "id").isSome ∧ (d.metadata.getStr "source").isSome) →
      retrieve_parent_neighbors tbl docs = docs.map (expandTotal tbl) := by
  intro docs
  induction docs with
  | nil => intro _; rfl
  | cons d ds ih =>
    intro h
    obtain ⟨hid, hsrc⟩ := h d (List.mem_cons_self d ds)
    obtain ⟨pid, hpid⟩ := Option.isSome_iff_exists.1 hid
    obtain ⟨src, hsrc'⟩ := Option.isSome_iff_exists.1 hsrc
    have hexp : expandDoc tbl d = some (expandTotal tbl d) := by
      simp only [expandDoc, expandTotal, hpid, hsrc', Option.getD_some]
    rw [retrieve_parent_neighbors, List.filterMap_cons_some hexp, List.map_cons]
    exact congrArg _ (ih (fun d' hd' => h d' (List.mem_cons_of_mem d hd')))

/-- C3 (amended): neighbor expansion emits one expanded record per input doc in
input order, whose text joins the parents found at parent_id - 1, parent_id and
parent_id + 1 with single spaces, missing neighbors being omitted without
error; a middle chunk (all three neighbors present) concatenates exactly 3
parents; the boundary chunks of a source with parents at 0, 1, maxId - 1 and
maxId but none at -1 or maxId + 1 (so at least two parents) concatenate
exactly 2; a single-parent source concatenates only 1 at its boundary. -/
theorem neighbor_expansion_counts (tbl : DocTable) (docs : List RagDoc)
    (source : String) (maxId pid : Int)
    (hdocs : ∀ d ∈ docs, (d.metadata.getInt "id").isSome ∧ (d.metadata.getStr "source").isSome)
    (hm1 : (lookupParent tbl source (pid - 1)).isSome)
    (hm2 : (lookupParent tbl source pid).isSome)
    (hm3 : (lookupParent tbl source (pid + 1)).isSome)
    (hlo : lookupParent tbl source (-1) = none)
    (hlo0 : (lookupParent tbl source 0).isSome)
    (hlo1 : (lookupParent tbl source 1).isSome)
    (hhi1 : (lookupParent tbl source (maxId - 1)).isSome)
    (hhi2 : (lookupParent tbl source maxId).isSome)
    (hhi3 : lookupParent tbl source (maxId + 1) = none) :
    retrieve_parent_neighbors tbl docs = docs.map (expandTotal tbl)
    ∧ (neighborTexts tbl source pid).length = 3
    ∧ (neighborTexts tbl source 0).length = 2
    ∧ (neighborTexts tbl source maxId).length = 2 := by
  refine ⟨retrieve_parent_neighbors_eq_map tbl docs hdocs, ?_, ?_, ?_⟩
  · obtain ⟨r1, h1⟩ := Option.isSome_iff_exists.1 hm1
    obtain ⟨r2, h2⟩ := Option.isSome_iff_exists.1 hm2
    obtain ⟨r3, h3⟩ := Option.isSome_iff_exists.1 hm3
    simp [neighborTexts, h1, h2, h3]
  · obtain ⟨r2, h2⟩ := Option.isSome_iff_exists.1 hlo0
    obtain ⟨r3, h3⟩ := Option.isSome_iff_exists.1 hlo1
    have e1 : (0 : Int) - 1 = -1 := by decide
    have e2 : (0 : Int) + 1 = 1 := by decide
    rw [neighborTexts, e1, e2]
    simp [hlo, h2, h3]
  · obtain ⟨r1, h1⟩ := Option.isSome_iff_exists.1 hhi1
    obtain ⟨r2, h2⟩ := Option.isSome_iff_exists.1 hhi2
    simp [neighborTexts, h1, h2, hhi3]

/-- A docstore holding the three parents 0, 1, 2 of source "a". -/
def tbl3 : DocTable := [⟨"a", 0, "A"⟩, ⟨"a", 1, "B"⟩, ⟨"a", 2, "C"⟩]

/-- An input doc list holding the middle parent 1 of source "a". -/
def docs3 : List RagDoc := [⟨"B", [("source", MVal.s "a"), ("id", MVal.i 1)]⟩]

/-- Witness for neighbor_expansion_counts: source "a" with parents 0..2,
middle chunk 1, boundary chunks 0 and 2. -/
theorem neighbor_expansion_counts_witness :
    retrieve_parent_neighbors tbl3 docs3 = docs3.map (expandTotal tbl3)
    ∧ (neighborTexts tbl3 "a" 1).length = 3
    ∧ (neighborTexts tbl3 "a" 0).length = 2
    ∧ (neighborTexts tbl3 "a" 2).length = 2 :=
  neighbor_expansion_counts tbl3 docs3 "a" 2 1 (by decide) (by decide) (by decide)
    (by decide) (by decide) (by decide) (by decide) (by decide) (by decide) (by decide)

/-- A docstore holding a single parent (id 0 only) of source "a". -/
def tblSingle : DocTable := [⟨"a", 0, "A"⟩]

/-- C3 counterexample: for a source whose only parent is id 0 (so id 0 is a
boundary chunk), neighbor expansion concatenates exactly 1 parent, not 2:
the claimed boundary count of 2 fails on a single-parent source. -/
theorem neighbor_expansion_boundary_counterexample :
    lookupParent tblSingle "a" (-1) = none
    ∧ lookupParent tblSingle "a" 1 = none
    ∧ (neighborTexts tblSingle "a" 0).length = 1
    ∧ retrieve_parent_neighbors tblSingle [⟨"q", [("source", MVal.s "a"), ("id", MVal.i 0)]⟩]
        = [⟨"A", [("source", MVal.s "a")]⟩] := by decide

/-- C10: every record emitted by neighbor expansion carries a metadata dict
whose only key is "source" (the parent sequence id is dropped), so
build_context always formats its ID field with the "Unknown parent id"
placeholder for such records. -/
theorem neighbor_records_drop_parent_id (tbl : DocTable) (docs : List RagDoc) (rec : RagDoc)
    (hrec : rec ∈ retrieve_parent_neighbors tbl docs) :
    rec.metadata.map Prod.fst = ["source"]
    ∧ rec.metadata.lookup "id" = none
    ∧ buildContextLine rec
        = "[Source: " ++ ((rec.metadata.getStr "source").getD "Unknown Source")
            ++ ", ID: " ++ "Unknown parent id" ++ "]\nText: " ++ rec.text ++ "\n]" := by
  rw [retrieve_parent_neighbors] at hrec
  obtain ⟨d, _, hexp⟩ := List.mem_filterMap.1 hrec
  cases hid : d.metadata.getInt "id" with
  | none => simp [expandDoc, hid] at hexp
  | some pid =>
    cases hsrc : d.metadata.getStr "source" with
    | none => simp [expandDoc, hid, hsrc] at hexp
    | some src =>
      simp only [expandDoc, hid, hsrc, Option.some.injEq] at hexp
      subst hexp
      refine ⟨rfl, rfl, rfl⟩

/-- Witness for neighbor_records_drop_parent_id at the record expanded from
docs3 over tbl3. -/
theorem neighbor_records_drop_parent_id_witness :
    (⟨"A B C", [("source", MVal.s "a")]⟩ : RagDoc).metadata.map Prod.fst = ["source"]
    ∧ (⟨"A B C", [("source", MVal.s "a")]⟩ : RagDoc).metadata.lookup "id" = none
    ∧ buildContextLine ⟨"A B C", [("source", MVal.s "a")]⟩
        = "[Source: " ++ (((⟨"A B C", [("source", MVal.s "a")]⟩ : RagDoc).metadata.getStr
              "source").getD "Unknown Source")
            ++ ", ID: " ++ "Unknown parent id" ++ "]\nText: "
            ++ (⟨"A B C", [("source", MVal.s "a")]⟩ : RagDoc).text ++ "\n]" :=
  neighbor_records_drop_parent_id tbl3 docs3 ⟨"A B C", [("source", MVal.s "a")]⟩ (by decide)

/-- The value RagPipeline.generate_response produces (rag.py): the LLM token
stream over the built messages, the fixed guidance string returned without
generating, or a raised RuntimeError. -/
inductive GenResult where
  | stream
  | fallback (msg : String)
  | raised (msg : String)
deriving DecidableEq

/-- The fixed guidance string interpolating the COLLECTION name (rag.py,
generate_response; whitespace, bullets and apostrophes condensed, which no
claim inspects). -/
def guidanceMessage (collection : String) : String :=
  "I could not find specific information to answer your question in the "
    ++ collection
    ++ " collection. To get the best results: ensure your question relates to the documents available; use the Get Files option to see what documents are in this collection; if the desired file is not present in the list of files, use Upload File to upload a new file; try rephrasing your question with more context. The system did retrieve some content, but it did not directly address your query."

/-- What the relevance stage delivers to generate_response:
check_context_relevance (rag_utils.py) either raises (LLM failure or
json.loads failure on an unparseable judgment) or yields a parsed dict whose
"rating" key may be absent; relevance.get("rating") is then an Option. -/
abbrev RelevanceResult := Except String (Option Int)

/-- RagPipeline.generate_response (rag.py): with the relevance gate disabled
the stream is returned directly. Otherwise a missing rating raises KeyError
and any exception of the try block is re-raised as RuntimeError; a parsed
rating streams when 2 <= rating <= 5 and otherwise returns the guidance
string. -/
def generate_response (context_relevance : Bool) (collection : String)
    (rel : RelevanceResult) : GenResult :=
  if ¬ context_relevance then GenResult.stream
  else
    match rel with
    | Except.error e => GenResult.raised ("Unable to generate response: " ++ e)
    | Except.ok none =>
        GenResult.raised ("Unable to generate response: " ++ "Missing rating in relevance response.")
    | Except.ok (some rating) =>
        if 2 ≤ rating ∧ rating ≤ 5 then GenResult.stream
        else GenResult.fallback (guidanceMessage collection)

/-- C1 counterexample: a relevance judgment with the rating missing makes
generate_response raise a RuntimeError rather than return the fixed guidance
message, and an unparseable judgment does the same. -/
theorem relevance_gate_missing_rating_counterexample :
    generate_response true "docs" (Except.ok none)
        = GenResult.raised ("Unable to generate response: " ++ "Missing rating in relevance response.")
    ∧ generate_response true "docs" (Except.ok none) ≠ GenResult.fallback (guidanceMessage "docs")
    ∧ generate_response true "docs" (Except.error "json parse failure")
        = GenResult.raised ("Unable to generate response: " ++ "json parse failure")
    ∧ generate_response true "docs" (Except.error "json parse failure")
        ≠ GenResult.fallback (guidanceMessage "docs") := by
  refine ⟨rfl, ?_, rfl, ?_⟩ <;> decide

/-- C1 (amended): with the relevance gate enabled, generate_response returns
the LLM stream exactly when the parsed rating lies in 2..5; a parsed rating
outside 2..5 (such as 1) returns the fixed guidance message; a missing or
unparseable rating raises a RuntimeError instead of deflecting; with the gate
disabled the stream is returned unconditionally. -/
theorem relevance_gate_policy (collection e : String) (r r' : Int)
    (hr : ¬ (2 ≤ r ∧ r ≤ 5)) (hr' : 2 ≤ r' ∧ r' ≤ 5) (rel : RelevanceResult) :
    generate_response true collection (Except.ok (some r')) = GenResult.stream
    ∧ generate_response true collection (Except.ok (some r))
        = GenResult.fallback (guidanceMessage collection)
    ∧ generate_response true collection (Except.ok none)
        = GenResult.raised ("Unable to generate response: " ++ "Missing rating in relevance response.")
    ∧ generate_response true collection (Except.error e)
        = GenResult.raised ("Unable to generate response: " ++ e)
    ∧ generate_response false collection rel = GenResult.stream := by
  refine ⟨?_, ?_, rfl, rfl, rfl⟩
  · simp [generate_response, hr']
  · simp [generate_response, hr]

/-- Witness for relevance_gate_policy: rating 1 deflects, rating 4 streams. -/
theorem relevance_gate_policy_witness :
    generate_response true "docs" (Except.ok (some 4)) = GenResult.stream
    ∧ generate_response true "docs" (Except.ok (some 1))
        = GenResult.fallback (guidanceMessage "docs")
    ∧ generate_response true "docs" (Except.ok none)
        = GenResult.raised ("Unable to generate response: " ++ "Missing rating in relevance response.")
    ∧ generate_response true "docs" (Except.error "oops")
        = GenResult.raised ("Unable to generate response: " ++ "oops")
    ∧ generate_response false "docs" (Except.ok (some 1)) = GenResult.stream :=
  relevance_gate_policy "docs" "oops" 1 4 (by decide) (by decide) (Except.ok (some 1))

/-- The point ids assigned by one call of QdrantStore.upsert
(qdrant_utils.py): PointStruct(id = idx + 1) for idx in range(n_points),
where n_points = len(metadatas). -/
def upsertPointIds (n_points : Nat) : List Nat :=
  (List.range n_points).map (fun idx => idx + 1)

/-- Qdrant point-upsert semantics at the id level: writing a point under an
existing id replaces the stored point with that id. -/
def putPoint {α : Type} (store : List (Nat × α)) (p : Nat × α) : List (Nat × α) :=
  store.filter (fun q => q.1 ≠ p.1) ++ [p]

/-- The effect of one QdrantStore.upsert call on the stored points: the points
(idx + 1, metadatas[idx]) are written in order (the batching loop only splits
the same point list into consecutive client.upsert requests). -/
def upsertCall {α : Type} (store : List (Nat × α)) (metadatas : List α) : List (Nat × α) :=
  ((upsertPointIds metadatas.length).zip metadatas).foldl putPoint store

/-- C4 counterexample: two successive upsert calls both assign point id 1, so
ids are not strictly greater than previously stored ones; the second call
overwrites the point stored by the first instead of creating a new one. -/
theorem upsert_point_ids_reused_counterexample :
    upsertPointIds 1 = [1]
    ∧ upsertCall ([] : List (Nat × String)) ["A"] = [(1, "A")]
    ∧ upsertCall (upsertCall ([] : List (Nat × String)) ["A"]) ["B"] = [(1, "B")] := by
  refine ⟨rfl, rfl, rfl⟩

/-- C4 (amended): within a single upsert call the assigned point ids are the
strictly increasing sequence 1..n, but the ids depend only on the batch size
— every call restarts from 1 — so a later upsert call reuses the ids of
earlier calls (overwriting those points) and no across-call monotonicity
holds. -/
theorem upsert_point_ids_per_call (α : Type) (metas metas' : List α)
    (hlen : metas.length = metas'.length) (hne : metas ≠ []) :
    List.Pairwise (· < ·) (upsertPointIds metas.length)
    ∧ upsertPointIds metas.length = upsertPointIds metas'.length
    ∧ 1 ∈ upsertPointIds metas.length := by
  refine ⟨?_, by rw [hlen], ?_⟩
  · exact (List.pairwise_lt_range metas.length).map _ (fun a b h => Nat.add_lt_add_right h 1)
  · have hpos : 0 < metas.length := List.length_pos.2 hne
    exact List.mem_map.2 ⟨0, List.mem_range.2 hpos, rfl⟩

/-- Witness for upsert_point_ids_per_call: two one-point batches. -/
theorem upsert_point_ids_per_call_witness :
    List.Pairwise (· < ·) (upsertPointIds (["A"] : List String).length)
    ∧ upsertPointIds (["A"] : List String).length
        = upsertPointIds (["B"] : List String).length
    ∧ 1 ∈ upsertPointIds (["A"] : List String).length :=
  upsert_point_ids_per_call String ["A"] ["B"] (by decide) (by decide)

/-- A parent chunk produced by TextChunker.split_text (chunker.py): text plus
metadata source and id (the sequence id assigned in split order). -/
structure ParentChunk where
  text : String
  source : String
  id : Nat
deriving DecidableEq

/-- A child chunk produced by TextChunker.split_children (chunker.py): the
parent metadata with id renamed parent_id, plus the running child_id. -/
structure ChildChunk where
  text : String
  source : String
  parent_id : Nat
  child_id : Nat
deriving DecidableEq

/-- TextChunker.split_text with the external langchain
RecursiveCharacterTextSplitter abstracted as pSplit: enumerate the spans and
attach source and id metadata. -/
def split_text (pSplit : String → List String) (source : String) (text : String) :
    List ParentChunk :=
  ((pSplit text).enum).map (fun c => { text := c.2, source := source, id := c.1 })

/-- The loop of TextChunker.split_children with its running child_id counter,
which starts at the given cid and advances across the parents of ONE call. -/
def split_children_aux (cSplit : String → List String) (cid : Nat) :
    List ParentChunk → List ChildChunk
  | [] => []
  | p :: ps =>
      (((cSplit p.text).enumFrom cid).map (fun c =>
          { text := c.2, source := p.source, parent_id := p.id, child_id := c.1 }))
        ++ split_children_aux cSplit (cid + (cSplit p.text).length) ps

/-- TextChunker.split_children: child_id = 0 at the start of each call. -/
def split_children (cSplit : String → List String) (ps : List ParentChunk) :
    List ChildChunk :=
  split_children_aux cSplit 0 ps

/-- TextChunker.parent_child_splitter: per (source, text) pair, split parents
then children, extending the accumulated lists; split_children is called anew
for each source. -/
def parent_child_splitter (pSplit cSplit : String → List String)
    (texts : List (String × String)) : List ParentChunk × List ChildChunk :=
  texts.foldl
    (fun acc st =>
      let ps := split_text pSplit st.1 st.2
      (acc.1 ++ ps, acc.2 ++ split_children cSplit ps))
    ([], [])

/-- The child ids assigned by one split_children call starting at cid are the
consecutive run cid, cid+1, ... over all emitted children. -/
theorem split_children_aux_map_child_id (cSplit : String → List String) :
    ∀ (ps : List ParentChunk) (cid : Nat),
      (split_children_aux cSplit cid ps).map (fun c => c.child_id)
        = List.range' cid (split_children_aux cSplit cid ps).length := by
  intro ps
  induction ps with
  | nil => intro cid; rfl
  | cons p ps ih =>
    intro cid
    simp only [split_children_aux, List.map_append, List.length_append, List.map_map,
      List.length_map, List.enumFrom_length]
    have hfst : List.map ((fun c : ChildChunk => c.child_id) ∘ (fun c : Nat × String =>
        ({ text := c.2, source := p.source, parent_id := p.id, child_id := c.1 } : ChildChunk)))
        ((cSplit p.text).enumFrom cid) = List.range' cid (cSplit p.text).length :=
      List.enumFrom_map_fst cid (cSplit p.text)
    rw [hfst, ih (cid + (cSplit p.text).length), List.range'_append_1]
    congr 1
    omega

/-- The children produced by parent_child_splitter are the per-source
split_children outputs concatenated in source order, each from a fresh
split_children call. -/
theorem parent_child_splitter_children_foldl (pSplit cSplit : String → List String) :
    ∀ (texts : List (String × String)) (acc : List ParentChunk × List ChildChunk),
      (texts.foldl
          (fun acc st =>
            let ps := split_text pSplit st.1 st.2
            (acc.1 ++ ps, acc.2 ++ split_children cSplit ps))
          acc).2
        = acc.2 ++ texts.flatMap (fun st => split_children cSplit (split_text pSplit st.1 st.2)) := by
  intro texts
  induction texts with
  | nil => intro acc; simp
  | cons t ts ih =>
    intro acc
    simp only [List.foldl_cons, List.flatMap_cons]
    rw [ih]
    simp [List.append_assoc]

/-- C5 counterexample: a batch holding two sources, with the external splitter
returning each text as a single span, gives the single child chunk of each source
the same child_id 0: child ids are not unique across the batch. -/
theorem child_id_not_batch_unique_counterexample :
    ((parent_child_splitter (fun t => [t]) (fun t => [t]) [("a", "x"), ("b", "y")]).2.map
        (fun c => c.child_id)) = [0, 0]
    ∧ ¬ ((parent_child_splitter (fun t => [t]) (fun t => [t]) [("a", "x"), ("b", "y")]).2.map
        (fun c => c.child_id)).Nodup
    ∧ (parent_child_splitter (fun t => [t]) (fun t => [t]) [("a", "x"), ("b", "y")]).2
        = [⟨"x", "a", 0, 0⟩, ⟨"y", "b", 0, 0⟩] := by
  refine ⟨rfl, by decide, rfl⟩

/-- C5 (amended): within one split_children call (one source) the child ids
are the monotonic counter 0, 1, ... over the children of that source, hence unique
per source; but parent_child_splitter invokes split_children afresh for each
source of the batch, so the counter restarts at 0 per source and child ids
are not unique across a multi-source batch. -/
theorem child_ids_per_source_counter (pSplit cSplit : String → List String)
    (ps : List ParentChunk) (texts : List (String × String)) :
    (split_children cSplit ps).map (fun c => c.child_id)
        = List.range (split_children cSplit ps).length
    ∧ ((split_children cSplit ps).map (fun c => c.child_id)).Nodup
    ∧ (parent_child_splitter pSplit cSplit texts).2
        = texts.flatMap (fun st => split_children cSplit (split_text pSplit st.1 st.2)) := by
  have h0 : (split_children cSplit ps).map (fun c => c.child_id)
      = List.range (split_children cSplit ps).length := by
    rw [split_children, split_children_aux_map_child_id, List.range_eq_range']
  refine ⟨h0, ?_, ?_⟩
  · rw [h0]
    exact List.nodup_range _
  · rw [parent_child_splitter, parent_child_splitter_children_foldl]
    rfl

/-- A parent-chunk entry as consumed by async_upsert_parents_to_docstore:
entry["metadata"]["source"], entry["metadata"]["id"] and entry["text"]. -/
structure ParentEntry where
  source : String
  id : Int
  text : String
deriving DecidableEq

/-- One iteration of the loop of async_upsert_parents_to_docstore
(docstore_crud.py): query for (source, parent_id); only when absent, add the
row and count it (the added row is visible to later duplicate checks of the
same session via autoflush). -/
def upsertParentStep (acc : DocTable × Nat) (e : ParentEntry) : DocTable × Nat :=
  if (lookupParent acc.1 e.source e.id).isSome then acc
  else (acc.1 ++ [{ source := e.source, parent_id := e.id, text := e.text }], acc.2 + 1)

/-- async_upsert_parents_to_docstore(new_entries, session, ...): fold the
entries over the table with the saved counter starting at 0. -/
def upsert_parents_to_docstore (tbl : DocTable) (entries : List ParentEntry) : DocTable × Nat :=
  entries.foldl upsertParentStep (tbl, 0)

/-- The (source, parent_id) keys of the docstore table. -/
def docKeys (tbl : DocTable) : List (String × Int) :=
  tbl.map (fun r => (r.source, r.parent_id))

/-- The upsert loop only ever appends rows to the table. -/
theorem upsert_parents_prefix :
    ∀ (entries : List ParentEntry) (acc : DocTable × Nat),
      ∃ ext, (entries.foldl upsertParentStep acc).1 = acc.1 ++ ext := by
  intro entries
  induction entries with
  | nil => intro acc; exact ⟨[], by simp⟩
  | cons e es ih =>
    intro acc
    simp only [List.foldl_cons]
    by_cases h : (lookupParent acc.1 e.source e.id).isSome
    · have hstep : upsertParentStep acc e = acc := by simp [upsertParentStep, h]
      rw [hstep]
      exact ih acc
    · obtain ⟨ext, hext⟩ := ih (upsertParentStep acc e)
      refine ⟨{ source := e.source, parent_id := e.id, text := e.text } :: ext, ?_⟩
      rw [hext]
      simp [upsertParentStep, h]

/-- Appending rows does not change a lookup that already succeeds. -/
theorem lookupParent_append_left (tbl ext : DocTable) (s : String) (i : Int)
    (h : (lookupParent tbl s i).isSome) :
    lookupParent (tbl ++ ext) s i = lookupParent tbl s i := by
  induction tbl with
  | nil => simp [lookupParent] at h
  | cons r rs ih =>
    by_cases hp : (r.source == s && r.parent_id == i) = true
    · show List.find? _ (r :: (rs ++ ext)) = List.find? _ (r :: rs)
      rw [List.find?_cons_of_pos (rs ++ ext) hp, List.find?_cons_of_pos rs hp]
    · have hskip : lookupParent (r :: rs) s i = lookupParent rs s i := by
        show List.find? _ (r :: rs) = _
        rw [List.find?_cons_of_neg rs hp]
        rfl
      have h' : (lookupParent rs s i).isSome := by rwa [hskip] at h
      show List.find? _ (r :: (rs ++ ext)) = List.find? _ (r :: rs)
      rw [List.find?_cons_of_neg (rs ++ ext) hp, List.find?_cons_of_neg rs hp]
      exact ih h'

/-- The key of a freshly appended row is found afterwards. -/
theorem lookupParent_append_self (tbl : DocTable) (s : String) (i : Int) (t : String) :
    (lookupParent (tbl ++ [{ source := s, parent_id := i, text := t }]) s i).isSome := by
  induction tbl with
  | nil =>
    have hrow : (({ source := s, parent_id := i, text := t } : DocstoreRow).source == s
        && ({ source := s, parent_id := i, text := t } : DocstoreRow).parent_id == i) = true := by
      simp
    show (List.find? (fun r : DocstoreRow => r.source == s && r.parent_id == i)
        (({ source := s, parent_id := i, text := t } : DocstoreRow) :: [])).isSome
    rw [@List.find?_cons_of_pos _ (fun r : DocstoreRow => r.source == s && r.parent_id == i)
      ({ source := s, parent_id := i, text := t } : DocstoreRow) [] hrow]
    rfl
  | cons r rs ih =>
    by_cases hp : (r.source == s && r.parent_id == i) = true
    · show (List.find? (fun r : DocstoreRow => r.source == s && r.parent_id == i)
        (r :: (rs ++ [({ source := s, parent_id := i, text := t } : DocstoreRow)]))).isSome
      rw [@List.find?_cons_of_pos _ (fun r : DocstoreRow => r.source == s && r.parent_id == i) r
        (rs ++ [({ source := s, parent_id := i, text := t } : DocstoreRow)]) hp]
      rfl
    · show (List.find? (fun r : DocstoreRow => r.source == s && r.parent_id == i)
        (r :: (rs ++ [({ source := s, parent_id := i, text := t } : DocstoreRow)]))).isSome
      rw [@List.find?_cons_of_neg _ (fun r : DocstoreRow => r.source == s && r.parent_id == i) r
        (rs ++ [({ source := s, parent_id := i, text := t } : DocstoreRow)]) hp]
      exact ih

/-- After the upsert loop runs, the key of every processed entry is in the table. -/
theorem upsert_parents_covers :
    ∀ (entries : List ParentEntry) (acc : DocTable × Nat) (e : ParentEntry),
      e ∈ entries →
      (lookupParent (entries.foldl upsertParentStep acc).1 e.source e.id).isSome := by
  intro entries
  induction entries with
  | nil => intro acc e he; simp at he
  | cons e' es ih =>
    intro acc e he
    simp only [List.foldl_cons]
    rcases List.mem_cons.1 he with rfl | hmem
    · have hstep : (lookupParent (upsertParentStep acc e).1 e.source e.id).isSome := by
        by_cases h : (lookupParent acc.1 e.source e.id).isSome
        · simp [upsertParentStep, h]
        · simp only [upsertParentStep, if_neg h]
          exact lookupParent_append_self acc.1 e.source e.id e.text
      obtain ⟨ext, hext⟩ := upsert_parents_prefix es (upsertParentStep acc e)
      rw [hext, lookupParent_append_left _ _ _ _ hstep]
      exact hstep
    · exact ih (upsertParentStep acc e') e hmem

/-- When the key of every entry is already present, the upsert loop is a no-op. -/
theorem upsert_parents_noop :
    ∀ (entries : List ParentEntry) (acc : DocTable × Nat),
      (∀ e ∈ entries, (lookupParent acc.1 e.source e.id).isSome) →
      entries.foldl upsertParentStep acc = acc := by
  intro entries
  induction entries with
  | nil => intro acc _; rfl
  | cons e es ih =>
    intro acc h
    have hstep : upsertParentStep acc e = acc := by
      simp [upsertParentStep, h e (List.mem_cons_self e es)]
    simp only [List.foldl_cons, hstep]
    exact ih acc (fun e' he' => h e' (List.mem_cons_of_mem e he'))

/-- The upsert loop preserves key uniqueness of the table. -/
theorem upsert_parents_nodup_keys :
    ∀ (entries : List ParentEntry) (acc : DocTable × Nat),
      (docKeys acc.1).Nodup → (docKeys (entries.foldl upsertParentStep acc).1).Nodup := by
  intro entries
  induction entries with
  | nil => intro acc h; exact h
  | cons e es ih =>
    intro acc h
    simp only [List.foldl_cons]
    apply ih
    by_cases hp : (lookupParent acc.1 e.source e.id).isSome
    · simpa [upsertParentStep, hp] using h
    · have hnone : lookupParent acc.1 e.source e.id = none :=
        Option.not_isSome_iff_eq_none.1 hp
      have hnotmem : (e.source, e.id) ∉ docKeys acc.1 := by
        intro hmem
        obtain ⟨r, hr, hkey⟩ := List.mem_map.1 hmem
        rw [lookupParent] at hnone
        have hfail := List.find?_eq_none.1 hnone r hr
        simp only [Prod.mk.injEq] at hkey
        exact hfail (by simp [hkey.1, hkey.2])
      simp only [upsertParentStep, if_neg hp, docKeys, List.map_append]
      rw [List.nodup_append]
      refine ⟨h, by simp, ?_⟩
      intro a ha
      simp only [List.map_cons, List.map_nil, List.mem_singleton]
      intro hak
      rw [hak] at ha
      exact hnotmem ha

/-- C6: upserting parent chunks into the docstore is idempotent on the
(source, parent_id) key: a single entry whose key already exists leaves the
table unchanged and counts nothing; re-running a whole batch over the
resulting table is a complete no-op with 0 rows saved; and a table with
duplicate-free keys never acquires a duplicate key. -/
theorem upsert_parents_idempotent (tbl : DocTable) (entries : List ParentEntry)
    (e : ParentEntry) (hnd : (docKeys tbl).Nodup)
    (he : (lookupParent tbl e.source e.id).isSome) :
    upsert_parents_to_docstore tbl [e] = (tbl, 0)
    ∧ upsert_parents_to_docstore (upsert_parents_to_docstore tbl entries).1 entries
        = ((upsert_parents_to_docstore tbl entries).1, 0)
    ∧ (docKeys (upsert_parents_to_docstore tbl entries).1).Nodup := by
  refine ⟨?_, ?_, ?_⟩
  · refine upsert_parents_noop [e] (tbl, 0) ?_
    intro e' he'
    rcases List.mem_singleton.1 he' with rfl
    exact he
  · refine upsert_parents_noop entries ((upsert_parents_to_docstore tbl entries).1, 0) ?_
    intro e' he'
    exact upsert_parents_covers entries (tbl, 0) e' he'
  · exact upsert_parents_nodup_keys entries (tbl, 0) hnd

/-- Witness for upsert_parents_idempotent: a one-row table and a batch that
re-ingests the existing key plus a fresh one. -/
theorem upsert_parents_idempotent_witness :
    upsert_parents_to_docstore [⟨"a", 0, "T"⟩] [⟨"a", 0, "T2"⟩] = ([⟨"a", 0, "T"⟩], 0)
    ∧ upsert_parents_to_docstore
        (upsert_parents_to_docstore [⟨"a", 0, "T"⟩] [⟨"a", 0, "T2"⟩, ⟨"b", 1, "U"⟩]).1
        [⟨"a", 0, "T2"⟩, ⟨"b", 1, "U"⟩]
        = ((upsert_parents_to_docstore [⟨"a", 0, "T"⟩] [⟨"a", 0, "T2"⟩, ⟨"b", 1, "U"⟩]).1, 0)
    ∧ (docKeys (upsert_parents_to_docstore [⟨"a", 0, "T"⟩]
        [⟨"a", 0, "T2"⟩, ⟨"b", 1, "U"⟩]).1).Nodup :=
  upsert_parents_idempotent [⟨"a", 0, "T"⟩] [⟨"a", 0, "T2"⟩, ⟨"b", 1, "U"⟩] ⟨"a", 0, "T2"⟩
    (by decide) (by decide)

/-- A score entry returned by the cross-encoder: corpus_id indexes the
original docs list; the score type is abstract. -/
structure ScoreEntry (σ : Type) where
  corpus_id : Nat
  score : σ
deriving DecidableEq

/-- Rerank.rerank (rerank.py) with the external CrossEncoder.rank abstracted
as rankModel, which scores the whole batch at once and may fail: an empty
docs list returns [] at once; a rankModel failure is re-raised as a
RuntimeError for the whole retrieval; otherwise the score list is returned
whole when get_all is set and truncated to the first top_k entries when not. -/
def rerank {σ : Type} (rankModel : String → List String → Except String (List (ScoreEntry σ)))
    (query : String) (docs : List RagDoc) (top_k : Nat) (get_all : Bool) :
    Except String (List (ScoreEntry σ)) :=
  if docs.isEmpty then Except.ok []
  else
    match rankModel query (docs.map (fun d => d.text)) with
    | Except.error e => Except.error ("Reranking failed due to: " ++ e)
    | Except.ok scores => Except.ok (if get_all then scores else scores.take top_k)

/-- C7: rerank on an empty candidate list returns [] without error; a scoring
failure of the whole batch is surfaced as a fatal error for the retrieval;
and on a non-empty candidate list the score list is truncated to the first
top_k entries unless the return-all flag is set. -/
theorem rerank_empty_error_truncation {σ : Type}
    (m1 m2 m3 : String → List String → Except String (List (ScoreEntry σ)))
    (query e : String) (docs : List RagDoc) (scores : List (ScoreEntry σ))
    (top_k : Nat) (g : Bool)
    (hne : docs ≠ [])
    (herr : m1 query (docs.map (fun d => d.text)) = Except.error e)
    (hok : m2 query (docs.map (fun d => d.text)) = Except.ok scores) :
    rerank m3 query [] top_k g = Except.ok []
    ∧ rerank m1 query docs top_k g = Except.error ("Reranking failed due to: " ++ e)
    ∧ rerank m2 query docs top_k false = Except.ok (scores.take top_k)
    ∧ rerank m2 query docs top_k true = Except.ok scores := by
  have hempty : docs.isEmpty = false := by
    cases docs with
    | nil => exact absurd rfl hne
    | cons d ds => rfl
  refine ⟨rfl, ?_, ?_, ?_⟩
  · rw [rerank, hempty]
    simp only [Bool.false_eq_true, if_false]
    rw [herr]
  · rw [rerank, hempty]
    simp only [Bool.false_eq_true, if_false]
    rw [hok]
  · rw [rerank, hempty]
    simp only [Bool.false_eq_true, if_false]
    rw [hok]
    simp

/-- Witness for rerank_empty_error_truncation: one candidate, a failing model
and a two-score model, top_k = 1. -/
theorem rerank_empty_error_truncation_witness :
    rerank (fun _ _ => Except.ok ([] : List (ScoreEntry Nat)))
        "q" [] 1 false = Except.ok []
    ∧ rerank (fun _ _ => (Except.error "batch failure" : Except String (List (ScoreEntry Nat))))
        "q" [⟨"d", []⟩] 1 false = Except.error ("Reranking failed due to: " ++ "batch failure")
    ∧ rerank (fun _ _ => Except.ok [(⟨0, 7⟩ : ScoreEntry Nat), ⟨1, 3⟩])
        "q" [⟨"d", []⟩] 1 false = Except.ok ([⟨0, 7⟩, ⟨1, 3⟩].take 1)
    ∧ rerank (fun _ _ => Except.ok [(⟨0, 7⟩ : ScoreEntry Nat), ⟨1, 3⟩])
        "q" [⟨"d", []⟩] 1 true = Except.ok [⟨0, 7⟩, ⟨1, 3⟩] :=
  rerank_empty_error_truncation
    (fun _ _ => (Except.error "batch failure" : Except String (List (ScoreEntry Nat))))
    (fun _ _ => Except.ok [(⟨0, 7⟩ : ScoreEntry Nat), ⟨1, 3⟩])
    (fun _ _ => Except.ok ([] : List (ScoreEntry Nat)))
    "q" "batch failure" [⟨"d", []⟩] [⟨0, 7⟩, ⟨1, 3⟩] 1 false
    (by decide) rfl rfl

/-- A request QdrantStore.search forwards to client.query_points
(qdrant_utils.py): hybrid prefetch with RRF fusion, the two independent
dense and sparse queries, a dense-only query (dead code after the sparse
wrap), or a sparse-only query. -/
inductive SearchRequest (δ σ : Type) where
  | hybridQuery (dense : δ) (sparse : σ)
  | separateQuery (dense : δ) (sparse : σ)
  | denseOnly (dense : δ)
  | sparseOnly (sparse : σ)

/-- The observable outcome of QdrantStore.search: the explicit ValueError
guard, the TypeError from subscripting sparse_query_vector[0] when that
vector is None, or the client result. -/
inductive SearchOutcome (ρ : Type) where
  | valueError (msg : String)
  | noneTypeError
  | results (r : ρ)

/-- QdrantStore.search (qdrant_utils.py): the guard raises ValueError only
when both vectors are None; every other call first rebuilds the sparse vector
from sparse_query_vector[0] — dereferencing None when no sparse vector was
given — and then dispatches on dense/hybrid. -/
def search {δ σ ρ : Type} (client : SearchRequest δ σ → ρ)
    (dense_query_vector : Option δ) (sparse_query_vector : Option σ) (hybrid : Bool) :
    SearchOutcome ρ :=
  if dense_query_vector.isNone && sparse_query_vector.isNone then
    SearchOutcome.valueError "At least one of dense_query_vector or sparse_embed must be provided"
  else
    match sparse_query_vector with
    | none => SearchOutcome.noneTypeError
    | some sv =>
      match dense_query_vector with
      | some dv =>
          if hybrid then SearchOutcome.results (client (SearchRequest.hybridQuery dv sv))
          else SearchOutcome.results (client (SearchRequest.separateQuery dv sv))
      | none => SearchOutcome.results (client (SearchRequest.sparseOnly sv))

/-- C9: search raises whenever sparse_query_vector is None — ValueError when
dense_query_vector is also None, and the None-subscript TypeError otherwise —
and with a sparse vector supplied it always reaches the client, so a search
can only succeed when a sparse query vector is given. -/
theorem search_requires_sparse_vector {δ σ ρ : Type} (client : SearchRequest δ σ → ρ)
    (d : δ) (dense : Option δ) (sv : σ) (hybrid : Bool) :
    search client none (none : Option σ) hybrid
        = SearchOutcome.valueError
            "At least one of dense_query_vector or sparse_embed must be provided"
    ∧ search client (some d) (none : Option σ) hybrid = SearchOutcome.noneTypeError
    ∧ ∃ r, search client dense (some sv) hybrid = SearchOutcome.results r := by
  refine ⟨rfl, rfl, ?_⟩
  cases dense with
  | none => exact ⟨_, rfl⟩
  | some dv =>
    cases hybrid with
    | false => exact ⟨_, rfl⟩
    | true => exact ⟨_, rfl⟩

/-- Modelled from the spec: the distance-threshold acceptance test of
RagSemanticCache.lookup (src/cache.py) is performed inside the external
redisvl SemanticCache, which cache.py only constructs with the configured
distance_threshold and queries via cache.check; per spec section 4.7, lookup
embeds the query, searches the stored query embeddings and "a hit is returned
only if the distance is ≤ the configured distance_threshold". Embedding
distances are modelled as rationals, the stored entries as
(stored query, response) pairs with an abstract distance function. -/
def cache_lookup {α : Type} (distance_threshold : ℚ) (dist : α → α → ℚ)
    (store : List (α × String)) (q : α) : Option (α × String) :=
  store.find? (fun entry => decide (dist q entry.1 ≤ distance_threshold))

/-- C8: the semantic cache returns a hit exactly when some stored query lies
within distance_threshold of the lookup; a stored query at distance exactly
the threshold is a hit, and one at distance strictly greater is a miss. -/
theorem cache_threshold_boundary {α : Type} (t : ℚ) (dist : α → α → ℚ)
    (store : List (α × String)) (q x y : α) (r r' : String)
    (heq : dist q x = t) (hgt : t < dist q y) :
    ((cache_lookup t dist store q).isSome ↔ ∃ entry ∈ store, dist q entry.1 ≤ t)
    ∧ cache_lookup t dist [(x, r)] q = some (x, r)
    ∧ cache_lookup t dist [(y, r')] q = none := by
  refine ⟨?_, ?_, ?_⟩
  · rw [cache_lookup, List.find?_isSome]
    constructor
    · rintro ⟨entry, hmem, hp⟩
      exact ⟨entry, hmem, of_decide_eq_true hp⟩
    · rintro ⟨entry, hmem, hle⟩
      exact ⟨entry, hmem, decide_eq_true hle⟩
  · have hp : decide (dist q x ≤ t) = true := decide_eq_true (le_of_eq heq)
    rw [cache_lookup]
    rw [@List.find?_cons_of_pos _ (fun entry => decide (dist q entry.1 ≤ t)) (x, r) [] hp]
  · have hp : ¬ (decide (dist q y ≤ t) = true) := by
      simp only [decide_eq_true_eq]
      exact not_le_of_lt hgt
    rw [cache_lookup]
    rw [@List.find?_cons_of_neg _ (fun entry => decide (dist q entry.1 ≤ t)) (y, r') [] hp]
    rfl

/-- Witness for cache_threshold_boundary: threshold 1, distances read off the
stored value, a hit at distance exactly 1 and a miss at distance 2. -/
theorem cache_threshold_boundary_witness :
    ((cache_lookup 1 (fun _ v => v) [((1 : ℚ), "resp")] (0 : ℚ)).isSome
        ↔ ∃ entry ∈ [((1 : ℚ), "resp")], (fun (_ : ℚ) (v : ℚ) => v) 0 entry.1 ≤ 1)
    ∧ cache_lookup 1 (fun _ v => v) [((1 : ℚ), "hit")] (0 : ℚ) = some (1, "hit")
    ∧ cache_lookup 1 (fun _ v => v) [((2 : ℚ), "miss")] (0 : ℚ) = none :=
  cache_threshold_boundary 1 (fun _ v => v) [((1 : ℚ), "resp")] 0 1 2 "hit" "miss"
    (by norm_num) (by norm_num)
